import Mathlib

/-!
Verification of the risk-simulation verifier harness (`scripts/run_verifier.py`)
against its natural-language specification.

The harness is shallowly embedded: each Python function is translated into a
Lean definition over `ℝ` (the idealised semantics of the Python floats), with
the IEEE special values `nan`/`inf` made explicit through the `RVal` type, and
the subprocess boundary of `run_risk_sim` modelled by passing the observed
process result (exit code, stdout, stderr) as data and returning `Except`.
-/

namespace RunVerifier

/-- A Python float result as used by the harness: either an ordinary number,
or one of the sentinel values `float("inf")` / `float("nan")` that the code
produces explicitly. -/
inductive RVal where
  | num : ℝ → RVal
  | inf : RVal
  | nan : RVal

noncomputable section

open scoped Real

/-- The error function `math.erf` used by the oracle's normal CDF:
`erf x = 2/√π · ∫ t in 0..x, exp (−t²)`. -/
def erf (x : ℝ) : ℝ :=
  (2 / Real.sqrt Real.pi) * ∫ t in (0:ℝ)..x, Real.exp (-(t ^ 2))

/-- The local helper `norm_cdf` inside `black_scholes_price`:
`0.5 * (1 + erf (x / sqrt 2))`. -/
def norm_cdf (x : ℝ) : ℝ :=
  0.5 * (1.0 + erf (x / Real.sqrt 2.0))

/-- Embedding of `black_scholes_price` from `scripts/run_verifier.py`:
the analytic pricing oracle, including the degenerate branch for
`maturity <= 0 or vol <= 0`. -/
def black_scholes_price (spot strike rate dividend vol maturity : ℝ)
    (is_call : Bool := true) : ℝ :=
  if maturity ≤ 0 ∨ vol ≤ 0 then
    if is_call then max 0.0 (spot - strike) else max 0.0 (strike - spot)
  else
    let sqrt_t := Real.sqrt maturity
    let sigma_sqrt_t := vol * sqrt_t
    let d1 := (Real.log (spot / strike) + (rate - dividend + 0.5 * vol * vol) * maturity) /
      sigma_sqrt_t
    let d2 := d1 - sigma_sqrt_t
    let disc_rate := Real.exp (-rate * maturity)
    let disc_div := Real.exp (-dividend * maturity)
    if is_call then
      spot * disc_div * norm_cdf d1 - strike * disc_rate * norm_cdf d2
    else
      strike * disc_rate * norm_cdf (-d2) - spot * disc_div * norm_cdf (-d1)

end

/-- The error function is odd. -/
theorem erf_neg (x : ℝ) : erf (-x) = -erf x := by
  unfold erf
  rw [← mul_neg]
  congr 1
  have h := intervalIntegral.integral_comp_neg (fun t => Real.exp (-(t ^ 2)))
    (a := 0) (b := x)
  simp only [neg_sq, neg_zero] at h
  rw [intervalIntegral.integral_symm (-x) 0] at *
  linarith [h]

/-- The normal CDF helper satisfies `norm_cdf x + norm_cdf (−x) = 1`. -/
theorem norm_cdf_add_neg (x : ℝ) : norm_cdf x + norm_cdf (-x) = 1 := by
  unfold norm_cdf
  rw [neg_div, erf_neg]
  ring

/-- C1: for spot `S > 0`, strike `K > 0`, any rate and dividend, volatility
`σ > 0` and maturity `T > 0`, the oracle's call price minus its put price
equals the forward-parity value `S·e^(−qT) − K·e^(−rT)` exactly (put-call
parity, in the idealised real semantics of the float computation). -/
theorem black_scholes_put_call_parity
    (spot strike rate dividend vol maturity : ℝ)
    (hS : 0 < spot) (hK : 0 < strike) (hv : 0 < vol) (hT : 0 < maturity) :
    black_scholes_price spot strike rate dividend vol maturity true -
      black_scholes_price spot strike rate dividend vol maturity false =
    spot * Real.exp (-dividend * maturity) - strike * Real.exp (-rate * maturity) := by
  have hcond : ¬ (maturity ≤ 0 ∨ vol ≤ 0) := by
    push_neg
    exact ⟨hT, hv⟩
  unfold black_scholes_price
  rw [if_neg hcond, if_neg hcond]
  simp only [if_true, Bool.false_eq_true, if_false]
  set d1 := (Real.log (spot / strike) + (rate - dividend + 0.5 * vol * vol) * maturity) /
    (vol * Real.sqrt maturity) with hd1
  have h1 := norm_cdf_add_neg d1
  have h2 := norm_cdf_add_neg (d1 - vol * Real.sqrt maturity)
  linear_combination (spot * Real.exp (-dividend * maturity)) * h1 -
    (strike * Real.exp (-rate * maturity)) * h2

/-- Witness for C1 at `S = 2, K = 1, r = 0, q = 0, σ = 1, T = 1`. -/
theorem black_scholes_put_call_parity_witness :
    black_scholes_price 2 1 0 0 1 1 true - black_scholes_price 2 1 0 0 1 1 false =
      2 * Real.exp (-(0:ℝ) * 1) - 1 * Real.exp (-(0:ℝ) * 1) :=
  black_scholes_put_call_parity 2 1 0 0 1 1 two_pos one_pos one_pos one_pos

/-- C2: whenever `maturity ≤ 0` or `vol ≤ 0`, the oracle returns exactly the
intrinsic value: `max 0 (spot − strike)` for a call and
`max 0 (strike − spot)` for a put. -/
theorem black_scholes_degenerate_intrinsic
    (spot strike rate dividend vol maturity : ℝ)
    (h : maturity ≤ 0 ∨ vol ≤ 0) :
    black_scholes_price spot strike rate dividend vol maturity true =
        max 0 (spot - strike) ∧
      black_scholes_price spot strike rate dividend vol maturity false =
        max 0 (strike - spot) := by
  unfold black_scholes_price
  rw [if_pos h, if_pos h]
  norm_num

/-- Witness for C2 at `T = 0`. -/
theorem black_scholes_degenerate_intrinsic_witness :
    black_scholes_price 3 1 0 0 1 0 true = max 0 (3 - 1) ∧
      black_scholes_price 3 1 0 0 1 0 false = max 0 (1 - 3) :=
  black_scholes_degenerate_intrinsic 3 1 0 0 1 0 (Or.inl le_rfl)

noncomputable section

/-- The log-return series computed by `realised_statistics`:
`np.log(close / close.shift(1)).dropna()`, i.e. the list of
`ln(close_i / close_(i-1))` over consecutive closes. -/
def log_returns (close : List ℝ) : List ℝ :=
  (close.zip close.tail).map fun p => Real.log (p.2 / p.1)

/-- Embedding of `realised_statistics` from `scripts/run_verifier.py`:
annualized drift `mean(returns) * 252` and annualized volatility
`std(returns, ddof=1) * sqrt(252)`, with the pandas NaN semantics made
explicit: the mean of an empty series is NaN, and the Bessel-corrected
standard deviation of a series with fewer than two entries is NaN. -/
def realised_statistics (close : List ℝ) : RVal × RVal :=
  (if (log_returns close).length = 0 then RVal.nan
   else RVal.num ((log_returns close).sum / ((log_returns close).length : ℝ) * 252.0),
   if (log_returns close).length < 2 then RVal.nan
   else RVal.num (Real.sqrt
     (((log_returns close).map fun r =>
        (r - (log_returns close).sum / ((log_returns close).length : ℝ)) ^ 2).sum /
       (((log_returns close).length : ℝ) - 1)) * Real.sqrt 252.0))

end

/-- Unfolding of `log_returns` on a series with at least two points. -/
theorem log_returns_cons (a b : ℝ) (l : List ℝ) :
    log_returns (a :: b :: l) = Real.log (b / a) :: log_returns (b :: l) := rfl

/-- A series of `n` closes yields `n − 1` log returns. -/
theorem log_returns_length (close : List ℝ) :
    (log_returns close).length = close.length - 1 := by
  simp only [log_returns, List.length_map, List.length_zip, List.length_tail]
  omega

/-- The `i`-th log return is `ln(close_(i+1) / close_i)`. -/
theorem log_returns_getD (close : List ℝ) (i : ℕ) (h : i + 1 < close.length) :
    (log_returns close).getD i 0 = Real.log (close.getD (i + 1) 0 / close.getD i 0) := by
  induction close generalizing i with
  | nil => simp at h
  | cons a tl ih =>
    cases tl with
    | nil => simp at h
    | cons b l =>
      rw [log_returns_cons]
      cases i with
      | zero => rfl
      | succ j =>
        have h' : j + 1 < (b :: l).length := by
          simpa [List.length_cons] using h
        simpa [List.getD_cons_succ] using ih j h'

/-- A list sum as a `Finset.range` sum of its entries. -/
theorem list_sum_getD (l : List ℝ) :
    l.sum = ∑ i ∈ Finset.range l.length, l.getD i 0 := by
  induction l with
  | nil => simp
  | cons a tl ih =>
    rw [List.sum_cons, List.length_cons, Finset.sum_range_succ']
    simp only [List.getD_cons_succ, List.getD_cons_zero]
    rw [← ih]
    ring

/-- `getD` commutes with `map` inside the list's bounds. -/
theorem list_getD_map (f : ℝ → ℝ) (l : List ℝ) (i : ℕ) (h : i < l.length) :
    (l.map f).getD i 0 = f (l.getD i 0) := by
  rw [List.getD_eq_getElem?_getD, List.getD_eq_getElem?_getD,
    List.getElem?_eq_getElem (by simpa using h), List.getElem?_eq_getElem h]
  simp

/-- C5: on a series of `n ≥ 2` closes the estimator returns drift
`mean(log returns) × 252` over the `n − 1` consecutive log returns
`ln(close_(i+1)/close_i)`, and volatility equal to the Bessel-corrected
sample standard deviation of those returns times `√252`; with exactly one
return (`n = 2`) the Bessel divisor is zero and the volatility is the
undefined-variance NaN sentinel. -/
theorem realised_statistics_spec (close : List ℝ) (h : 2 ≤ close.length) :
    (realised_statistics close).1 =
      RVal.num ((∑ i ∈ Finset.range (close.length - 1),
          Real.log (close.getD (i + 1) 0 / close.getD i 0)) /
        ((close.length : ℝ) - 1) * 252) ∧
    (realised_statistics close).2 =
      (if close.length = 2 then RVal.nan
       else RVal.num (Real.sqrt ((∑ i ∈ Finset.range (close.length - 1),
            (Real.log (close.getD (i + 1) 0 / close.getD i 0) -
              (∑ j ∈ Finset.range (close.length - 1),
                Real.log (close.getD (j + 1) 0 / close.getD j 0)) /
                ((close.length : ℝ) - 1)) ^ 2) /
          ((close.length : ℝ) - 2)) * Real.sqrt 252)) := by
  have hm : (log_returns close).length = close.length - 1 := log_returns_length close
  have hcast : ((log_returns close).length : ℝ) = (close.length : ℝ) - 1 := by
    rw [hm, Nat.cast_sub (by omega), Nat.cast_one]
  have hsum : (log_returns close).sum =
      ∑ i ∈ Finset.range (close.length - 1),
        Real.log (close.getD (i + 1) 0 / close.getD i 0) := by
    rw [list_sum_getD, hm]
    exact Finset.sum_congr rfl fun i hi =>
      log_returns_getD close i (by have := Finset.mem_range.mp hi; omega)
  have hvarsum : ∀ c : ℝ,
      ((log_returns close).map fun r => (r - c) ^ 2).sum =
        ∑ i ∈ Finset.range (close.length - 1),
          (Real.log (close.getD (i + 1) 0 / close.getD i 0) - c) ^ 2 := by
    intro c
    rw [list_sum_getD, List.length_map, hm]
    refine Finset.sum_congr rfl fun i hi => ?_
    have hi' : i < (log_returns close).length := by
      rw [hm]; exact Finset.mem_range.mp hi
    rw [list_getD_map _ _ _ hi',
      log_returns_getD close i (by have := Finset.mem_range.mp hi; omega)]
  constructor
  · simp only [realised_statistics]
    rw [if_neg (by omega)]
    rw [hsum, hcast]
    norm_num
  · simp only [realised_statistics]
    by_cases h2 : close.length = 2
    · rw [if_pos (by omega), if_pos h2]
    · rw [if_neg (by omega), if_neg h2]
      simp only [hcast, hsum]
      rw [hvarsum]
      have hd : (close.length : ℝ) - 1 - 1 = (close.length : ℝ) - 2 := by ring
      rw [hd]
      norm_num

/-- Witness for C5 on the three-point series `[100, 110, 121]`. -/
theorem realised_statistics_spec_witness :
    2 ≤ ([100, 110, 121] : List ℝ).length ∧
      ((realised_statistics [100, 110, 121]).1 =
        RVal.num ((∑ i ∈ Finset.range (([100, 110, 121] : List ℝ).length - 1),
            Real.log (([100, 110, 121] : List ℝ).getD (i + 1) 0 /
              ([100, 110, 121] : List ℝ).getD i 0)) /
          ((([100, 110, 121] : List ℝ).length : ℝ) - 1) * 252) ∧
      (realised_statistics [100, 110, 121]).2 =
        (if ([100, 110, 121] : List ℝ).length = 2 then RVal.nan
         else RVal.num (Real.sqrt
            ((∑ i ∈ Finset.range (([100, 110, 121] : List ℝ).length - 1),
              (Real.log (([100, 110, 121] : List ℝ).getD (i + 1) 0 /
                  ([100, 110, 121] : List ℝ).getD i 0) -
                (∑ j ∈ Finset.range (([100, 110, 121] : List ℝ).length - 1),
                  Real.log (([100, 110, 121] : List ℝ).getD (j + 1) 0 /
                    ([100, 110, 121] : List ℝ).getD j 0)) /
                  ((([100, 110, 121] : List ℝ).length : ℝ) - 1)) ^ 2) /
            ((([100, 110, 121] : List ℝ).length : ℝ) - 2)) * Real.sqrt 252))) :=
  ⟨by simp, realised_statistics_spec [100, 110, 121] (by simp)⟩

/-- C6 counterexample: on the one-point series `[5]` the estimator returns
the pair `(NaN, NaN)` — it does not fail with any error. -/
theorem realised_statistics_short_counterexample :
    realised_statistics [(5 : ℝ)] = (RVal.nan, RVal.nan) := rfl

/-- C6 (amended): on every series with fewer than two points the estimator
returns `(NaN, NaN)`; it never raises an `InsufficientDataError` (no such
error exists in the code). -/
theorem realised_statistics_short (close : List ℝ) (h : close.length < 2) :
    realised_statistics close = (RVal.nan, RVal.nan) := by
  cases close with
  | nil => rfl
  | cons a tl =>
    cases tl with
    | nil => rfl
    | cons b tl2 =>
      simp only [List.length_cons] at h
      omega

/-- Witness for the amended C6 on the one-point series `[7]`. -/
theorem realised_statistics_short_witness :
    ([(7 : ℝ)] : List ℝ).length < 2 ∧
      realised_statistics [(7 : ℝ)] = (RVal.nan, RVal.nan) :=
  ⟨by simp, realised_statistics_short [(7 : ℝ)] (by simp)⟩

noncomputable section

/-- Model of `np.quantile(xs, p, method="higher")` as called by `compare_var`:
sort the sample ascending and return the entry at index `⌈p·(n−1)⌉` of the
sorted sample. -/
def np_quantile_higher (xs : List ℝ) (p : ℝ) : ℝ :=
  (List.insertionSort (· ≤ ·) xs).getD ⌈p * ((xs.length : ℝ) - 1)⌉₊ 0

/-- The linear-interpolated rank (numpy's default `method="linear"` quantile),
the value the specification's "smallest observed value ≥ interpolated rank"
rule refers to. -/
def np_quantile_linear (xs : List ℝ) (p : ℝ) : ℝ :=
  (List.insertionSort (· ≤ ·) xs).getD ⌊p * ((xs.length : ℝ) - 1)⌋₊ 0 +
    (p * ((xs.length : ℝ) - 1) - ⌊p * ((xs.length : ℝ) - 1)⌋₊) *
      ((List.insertionSort (· ≤ ·) xs).getD ⌈p * ((xs.length : ℝ) - 1)⌉₊ 0 -
        (List.insertionSort (· ≤ ·) xs).getD ⌊p * ((xs.length : ℝ) - 1)⌋₊ 0)

/-- Embedding of `compare_var` from `scripts/run_verifier.py`: on an empty
loss sample it returns the NaN pair; otherwise it returns the empirical VaR
(the inclusive/upper quantile) and the relative gap, which is the infinity
sentinel when the empirical VaR is exactly zero. -/
def compare_var (empirical_losses : List ℝ) (percentile simulated : ℝ) :
    RVal × RVal :=
  if empirical_losses.length = 0 then (RVal.nan, RVal.nan)
  else
    (RVal.num (np_quantile_higher empirical_losses percentile),
     if np_quantile_higher empirical_losses percentile ≠ 0 then
       RVal.num ((simulated - np_quantile_higher empirical_losses percentile) /
         np_quantile_higher empirical_losses percentile)
     else RVal.inf)

/-- Embedding of the relative-error computation in `main`'s option-pricing
check: `diff / analytic if analytic != 0 else float("inf")`. -/
def option_check_rel_err (mc_price analytic : ℝ) : RVal :=
  if analytic ≠ 0 then RVal.num ((mc_price - analytic) / analytic) else RVal.inf

end

/-- `getD` at an in-bounds index is `get`. -/
theorem list_getD_eq_get (l : List ℝ) (i : ℕ) (h : i < l.length) :
    l.getD i 0 = l.get ⟨i, h⟩ := by
  rw [List.getD_eq_getElem?_getD, List.getElem?_eq_getElem h]
  simp

/-- C3: for every non-empty loss sample and percentile `p ∈ (0,1)`, the
empirical VaR reported by `compare_var` is the "higher" quantile, which is a
member of the sample, is `≥` the linear-interpolated rank, and is `≤` every
sample value that is `≥` the linear-interpolated rank — i.e. it is the
smallest sample value at or above the interpolated rank. -/
theorem compare_var_inclusive_quantile (losses : List ℝ) (p sim : ℝ)
    (hne : losses ≠ []) (hp0 : 0 < p) (hp1 : p < 1) :
    (compare_var losses p sim).1 = RVal.num (np_quantile_higher losses p) ∧
    np_quantile_higher losses p ∈ losses ∧
    np_quantile_linear losses p ≤ np_quantile_higher losses p ∧
    ∀ x ∈ losses, np_quantile_linear losses p ≤ x →
      np_quantile_higher losses p ≤ x := by
  have hn : 0 < losses.length := List.length_pos.mpr hne
  set s := List.insertionSort (· ≤ ·) losses with hs
  have hperm : s.Perm losses := List.perm_insertionSort _ _
  have hsort : s.Sorted (· ≤ ·) := List.sorted_insertionSort _ _
  have hlen : s.length = losses.length := hperm.length_eq
  set h := p * ((losses.length : ℝ) - 1) with hhdef
  have hc1 : ((losses.length : ℝ) - 1) = ((losses.length - 1 : ℕ) : ℝ) := by
    rw [Nat.cast_sub hn, Nat.cast_one]
  have hnn : 0 ≤ ((losses.length : ℝ) - 1) := by
    rw [hc1]; positivity
  have hh0 : 0 ≤ h := mul_nonneg hp0.le hnn
  have hhle : h ≤ ((losses.length : ℝ) - 1) :=
    mul_le_of_le_one_left hnn hp1.le
  have hi1le : ⌈h⌉₊ ≤ losses.length - 1 := Nat.ceil_le.mpr (by rw [← hc1]; exact hhle)
  have hi1 : ⌈h⌉₊ < s.length := by rw [hlen]; omega
  have hi0 : ⌊h⌋₊ < s.length := lt_of_le_of_lt (Nat.floor_le_ceil h) hi1
  have hmono : ∀ i j (hi : i < s.length) (hj : j < s.length), i ≤ j →
      s.get ⟨i, hi⟩ ≤ s.get ⟨j, hj⟩ := by
    intro i j hi hj hij
    exact hsort.rel_get_of_le hij
  have hq : np_quantile_higher losses p = s.get ⟨⌈h⌉₊, hi1⟩ := by
    rw [np_quantile_higher, ← hs, ← hhdef, list_getD_eq_get s _ hi1]
  have hv : np_quantile_linear losses p =
      s.get ⟨⌊h⌋₊, hi0⟩ + (h - ⌊h⌋₊) * (s.get ⟨⌈h⌉₊, hi1⟩ - s.get ⟨⌊h⌋₊, hi0⟩) := by
    rw [np_quantile_linear, ← hs, ← hhdef, list_getD_eq_get s _ hi1,
      list_getD_eq_get s _ hi0]
  have hγ0 : 0 ≤ h - ⌊h⌋₊ := sub_nonneg.mpr (Nat.floor_le hh0)
  have hγ1 : h - ⌊h⌋₊ ≤ 1 := by
    have := Nat.lt_floor_add_one h
    linarith
  have hΔ : s.get ⟨⌊h⌋₊, hi0⟩ ≤ s.get ⟨⌈h⌉₊, hi1⟩ :=
    hmono _ _ _ _ (Nat.floor_le_ceil h)
  refine ⟨?_, ?_, ?_, ?_⟩
  · rw [compare_var, if_neg (by omega)]
  · rw [hq]
    exact hperm.subset (List.get_mem s _ _)
  · rw [hq, hv]
    nlinarith [mul_nonneg (sub_nonneg.mpr hγ1) (sub_nonneg.mpr hΔ)]
  · intro x hx hvx
    rw [hv] at hvx
    rw [hq]
    obtain ⟨j, hj, hxj0⟩ := List.mem_iff_getElem.mp (hperm.mem_iff.mpr hx)
    have hxj : s.get ⟨j, hj⟩ = x := hxj0
    by_cases hji : ⌈h⌉₊ ≤ j
    · calc s.get ⟨⌈h⌉₊, hi1⟩ ≤ s.get ⟨j, hj⟩ := hmono _ _ _ _ hji
        _ = x := hxj
    · have hj0 : j ≤ ⌊h⌋₊ := by
        have := Nat.ceil_le_floor_add_one h
        omega
      have hxle : x ≤ s.get ⟨⌊h⌋₊, hi0⟩ := by
        rw [← hxj]
        exact hmono _ _ _ _ hj0
      by_cases hfc : h ≤ (⌊h⌋₊ : ℝ)
      · have hi10 : ⌈h⌉₊ = ⌊h⌋₊ :=
          le_antisymm (Nat.ceil_le.mpr hfc) (Nat.floor_le_ceil h)
        have hequal : s.get ⟨⌈h⌉₊, hi1⟩ = s.get ⟨⌊h⌋₊, hi0⟩ := by
          congr 1
          exact Fin.ext hi10
        rw [hequal] at hvx ⊢
        linarith [hvx]
      · have hγpos : 0 < h - ⌊h⌋₊ := by
          push_neg at hfc
          linarith
        have hprod : 0 ≤ (h - ⌊h⌋₊) * (s.get ⟨⌈h⌉₊, hi1⟩ - s.get ⟨⌊h⌋₊, hi0⟩) :=
          mul_nonneg hγpos.le (sub_nonneg.mpr hΔ)
        have h1 : s.get ⟨⌊h⌋₊, hi0⟩ ≤ x := by linarith
        have h2 : (h - ⌊h⌋₊) * (s.get ⟨⌈h⌉₊, hi1⟩ - s.get ⟨⌊h⌋₊, hi0⟩) ≤ 0 := by
          linarith
        have h3 : s.get ⟨⌈h⌉₊, hi1⟩ ≤ s.get ⟨⌊h⌋₊, hi0⟩ := by
          by_contra hlt
          push_neg at hlt
          exact absurd (mul_pos hγpos (sub_pos.mpr hlt)) (not_lt.mpr h2)
        linarith

/-- Witness for C3 on the sample `[-50, -20, 0, 30, 100]` at `p = 0.8`:
the empirical VaR is a member of the sample (not an interpolated
non-member value) and is the smallest sample value at or above the
linear-interpolated rank. -/
theorem compare_var_inclusive_quantile_witness :
    (compare_var [-50, -20, 0, 30, 100] 0.8 0).1 =
        RVal.num (np_quantile_higher [-50, -20, 0, 30, 100] 0.8) ∧
      np_quantile_higher [-50, -20, 0, 30, 100] 0.8 ∈
        ([-50, -20, 0, 30, 100] : List ℝ) ∧
      np_quantile_linear [-50, -20, 0, 30, 100] 0.8 ≤
        np_quantile_higher [-50, -20, 0, 30, 100] 0.8 ∧
      ∀ x ∈ ([-50, -20, 0, 30, 100] : List ℝ),
        np_quantile_linear [-50, -20, 0, 30, 100] 0.8 ≤ x →
          np_quantile_higher [-50, -20, 0, 30, 100] 0.8 ≤ x :=
  compare_var_inclusive_quantile [-50, -20, 0, 30, 100] 0.8 0
    (by simp) (by norm_num) (by norm_num)

/-- C7: whenever the reference value of a relative-difference computation is
exactly zero — the empirical VaR in `compare_var`, or the analytic price in
`main`'s option-pricing check — the relative difference is the infinity
sentinel (and, the embeddings being total functions, no exception is
raised). -/
theorem zero_reference_infinity_sentinel :
    (∀ (losses : List ℝ) (p sim : ℝ), losses.length ≠ 0 →
        np_quantile_higher losses p = 0 →
        (compare_var losses p sim).2 = RVal.inf) ∧
    (∀ mc_price analytic : ℝ, analytic = 0 →
        option_check_rel_err mc_price analytic = RVal.inf) := by
  constructor
  · intro losses p sim h0 hq
    rw [compare_var, if_neg h0]
    simp only [hq]
    rw [if_neg (by simp)]
  · intro mc_price analytic h
    rw [option_check_rel_err, if_neg (not_not_intro h)]

/-- Witness for C7: the sample `[0]` has empirical VaR zero and `compare_var`
reports an infinite relative gap; a zero analytic price likewise yields the
infinity sentinel in the option check. -/
theorem zero_reference_infinity_sentinel_witness :
    (compare_var [(0 : ℝ)] 0.5 7).2 = RVal.inf ∧
      option_check_rel_err 3 0 = RVal.inf :=
  ⟨zero_reference_infinity_sentinel.1 [(0 : ℝ)] 0.5 7 (by simp)
      (by norm_num [np_quantile_higher]),
    zero_reference_infinity_sentinel.2 3 0 rfl⟩

/-- C8: on an empty loss sample `compare_var` returns not-a-number for both
the empirical VaR and the relative gap, for every percentile and simulated
value (and, the embedding being a total function, it raises no error). -/
theorem compare_var_empty (percentile simulated : ℝ) :
    compare_var [] percentile simulated = (RVal.nan, RVal.nan) := rfl

/-- The observable outcome of the `subprocess.run` invocation inside
`run_risk_sim`: exit status and the captured output streams. -/
structure ProcResult where
  returncode : Int
  stdout : String
  stderr : String

/-- Embedding of the result handling in `run_risk_sim` from
`scripts/run_verifier.py`: a non-zero exit status raises a `RuntimeError`
whose message is the prefix "risk_sim failed (", the command, "): " and then
`result.stderr or result.stdout` — Python's `or` picks `stderr` when it is
non-empty, else `stdout` — modelled as `Except.error`; a zero status hands
the captured stdout to the JSON parser, modelled as `Except.ok`. -/
def run_risk_sim (command : String) (res : ProcResult) : Except String String :=
  if res.returncode ≠ 0 then
    Except.error ("risk_sim failed (" ++ command ++ "): " ++
      (if res.stderr ≠ "" then res.stderr else res.stdout))
  else
    Except.ok res.stdout

/-- C9: every invocation whose process exits non-zero fails with an execution
error whose message contains the captured stderr stream verbatim. -/
theorem run_risk_sim_error_contains_stderr (command : String) (res : ProcResult)
    (h : res.returncode ≠ 0) :
    ∃ pre post : String,
      run_risk_sim command res = Except.error (pre ++ res.stderr ++ post) := by
  rw [run_risk_sim, if_pos h]
  by_cases he : res.stderr = ""
  · exact ⟨"risk_sim failed (" ++ command ++ "): ", res.stdout, by
      rw [if_neg (not_not_intro he), he]
      simp⟩
  · exact ⟨"risk_sim failed (" ++ command ++ "): ", "", by
      rw [if_pos he]
      simp⟩

/-- Witness for C9: exit status 1 with stderr `"boom"` fails with an error
message containing `"boom"`. -/
theorem run_risk_sim_error_contains_stderr_witness :
    (ProcResult.mk 1 "out" "boom").returncode ≠ 0 ∧
      ∃ pre post : String,
        run_risk_sim "option" (ProcResult.mk 1 "out" "boom") =
          Except.error (pre ++ "boom" ++ post) :=
  ⟨by decide, run_risk_sim_error_contains_stderr "option"
    (ProcResult.mk 1 "out" "boom") (by decide)⟩

/-- C10: when the process exits non-zero with an empty stderr stream, the
error message falls back to the captured stdout stream. -/
theorem run_risk_sim_error_fallback_stdout (command : String) (res : ProcResult)
    (h : res.returncode ≠ 0) (he : res.stderr = "") :
    ∃ pre : String,
      run_risk_sim command res = Except.error (pre ++ res.stdout) := by
  rw [run_risk_sim, if_pos h, if_neg (not_not_intro he)]
  exact ⟨"risk_sim failed (" ++ command ++ "): ", rfl⟩

/-- Witness for C10: exit status 2 with empty stderr and stdout `"oops"`
yields an error message ending in `"oops"`. -/
theorem run_risk_sim_error_fallback_stdout_witness :
    (ProcResult.mk 2 "oops" "").returncode ≠ 0 ∧
      (ProcResult.mk 2 "oops" "").stderr = "" ∧
      ∃ pre : String,
        run_risk_sim "var" (ProcResult.mk 2 "oops" "") =
          Except.error (pre ++ "oops") :=
  ⟨by decide, rfl, run_risk_sim_error_fallback_stdout "var"
    (ProcResult.mk 2 "oops" "") (by decide) rfl⟩

/-- The `option` request dictionary built by `main` (and copied by the
convergence sweep): market parameters, discretisation, Monte Carlo controls
and the random seed. -/
structure OptionPayload where
  spot : ℝ
  strike : ℝ
  rate : ℝ
  dividend : ℝ
  vol : ℝ
  maturity : ℝ
  steps : ℕ
  paths : ℕ
  seed : ℕ
  antithetic : String
  control : String
  block : ℕ
  type : String
deriving Inhabited

/-- Embedding of the convergence sweep in `main`: for `i = 0 .. stress_runs−1`
copy the base option payload, set `paths := args.paths * (i + 1)` and
`seed := 100 + i`, in increasing order of `i`. -/
def sweep_payloads (stress_runs args_paths : ℕ) (base : OptionPayload) :
    List OptionPayload :=
  (List.range stress_runs).map fun i =>
    { base with paths := args_paths * (i + 1), seed := 100 + i }

/-- A concrete base payload as `main` builds it: seed 42 and
variance-reduction flags on (spot/strike/vol stand in for the run-time
market data). -/
def base_payload : OptionPayload :=
  { spot := 100, strike := 100, rate := 0.02, dividend := 0.01, vol := 0.2,
    maturity := 1, steps := 252, paths := 1000, seed := 42,
    antithetic := "true", control := "true", block := 4096, type := "call" }

/-- C4 counterexample: the sweep does not derive its seeds from the base
request's seed. The base payload built by `main` carries seed 42, yet the
first sweep invocation carries seed 100, not `42 + 0`. -/
theorem sweep_payloads_seed_counterexample :
    base_payload.seed = 42 ∧
      ((sweep_payloads 3 1000 base_payload).getD 0 default).seed = 100 ∧
      ¬ ((sweep_payloads 3 1000 base_payload).getD 0 default).seed =
        base_payload.seed + 0 := by
  refine ⟨rfl, rfl, ?_⟩
  intro hcontra
  simp only [sweep_payloads, base_payload] at hcontra
  exact absurd hcontra (by decide)

/-- C4 (amended): a sweep of `N` iterations with base path count `P` issues
exactly `N` requests in increasing order of `i`, the `i`-th carrying sample
count `P × (i+1)` and seed `100 + i` — the seed base 100 is hardcoded and
independent of the base request's seed. -/
theorem sweep_payloads_spec (N P : ℕ) (base : OptionPayload) (i : ℕ)
    (h : i < N) :
    (sweep_payloads N P base).length = N ∧
      ((sweep_payloads N P base).getD i default).paths = P * (i + 1) ∧
      ((sweep_payloads N P base).getD i default).seed = 100 + i := by
  have hlen : (sweep_payloads N P base).length = N := by
    simp [sweep_payloads]
  have hget : (sweep_payloads N P base).getD i default =
      { base with paths := P * (i + 1), seed := 100 + i } := by
    rw [List.getD_eq_getElem?_getD, List.getElem?_eq_getElem (by rw [hlen]; exact h)]
    simp [sweep_payloads]
  exact ⟨hlen, by rw [hget], by rw [hget]⟩

/-- Witness for the amended C4: with 3 iterations and base paths 1000 the
sweep issues sample counts 1000, 2000, 3000 and seeds 100, 101, 102, in
that order. -/
theorem sweep_payloads_spec_witness :
    ((sweep_payloads 3 1000 base_payload).length = 3 ∧
        ((sweep_payloads 3 1000 base_payload).getD 0 default).paths = 1000 * (0 + 1) ∧
        ((sweep_payloads 3 1000 base_payload).getD 0 default).seed = 100 + 0) ∧
      (((sweep_payloads 3 1000 base_payload).getD 1 default).paths = 1000 * (1 + 1) ∧
        ((sweep_payloads 3 1000 base_payload).getD 1 default).seed = 100 + 1) ∧
      (((sweep_payloads 3 1000 base_payload).getD 2 default).paths = 1000 * (2 + 1) ∧
        ((sweep_payloads 3 1000 base_payload).getD 2 default).seed = 100 + 2) :=
  ⟨sweep_payloads_spec 3 1000 base_payload 0 (by decide),
    (sweep_payloads_spec 3 1000 base_payload 1 (by decide)).2,
    (sweep_payloads_spec 3 1000 base_payload 2 (by decide)).2⟩

end RunVerifier
